import Mathlib

/-!
Verification development for the EchoDaily persistence core
(src/src-tauri/src/db/{migrations.rs,queries.rs}, src/src-tauri/src/models.rs).

The SQLite database reached through sqlx is embedded shallowly: a database
state is a record of the three tables that matter to the persistence core
(entries, ai_operations, and the entries_fts full-text shadow table), each
modelled as a list of rows in insertion order.  Every SQL statement the Rust
code issues becomes a Lean function on this state.  Constraints declared by
the migrations (the id PRIMARY KEY and entry_date UNIQUE constraints on
entries, the id PRIMARY KEY and the ON DELETE CASCADE foreign key on
ai_operations, which sqlx enforces because SqliteConnectOptions enables
foreign keys by default) and the three FTS synchronisation triggers of
MIGRATION_005 (entries_ai, entries_ad, entries_au) are part of the statement
semantics, exactly as SQLite applies them.  Clock readings (chrono Utc::now)
and freshly generated UUIDs are passed as explicit parameters.
-/

namespace EchoDaily

/-- Row of the entries table; mirrors struct DiaryEntry in models.rs. -/
structure DiaryEntry where
  id : String
  entry_date : String
  content_json : String
  mood : Option String
  mood_emoji : Option String
  created_at : Int
  updated_at : Int
deriving DecidableEq, Repr

/-- Row of the ai_operations table; mirrors struct AIOperation in models.rs. -/
structure AIOperation where
  id : String
  entry_id : String
  op_type : String
  original_text : String
  result_text : String
  provider : String
  model : String
  created_at : Int
deriving DecidableEq, Repr

/-- Row of the entries_fts FTS5 virtual table created by MIGRATION_005:
entry_id (unindexed), content, mood, where mood is stored through
COALESCE(mood, ''). -/
structure FtsRow where
  entry_id : String
  content : String
  mood : String
deriving DecidableEq, Repr

/-- The database state after the migrations have run (the app_settings and
schema_migrations tables play no part in the entry-store claims and are
modelled separately for the migration engine). -/
structure Db where
  entries : List DiaryEntry
  ai_operations : List AIOperation
  entries_fts : List FtsRow
deriving DecidableEq, Repr

/-- Errors SQLite can raise on the statements the persistence core issues. -/
inductive SqlError where
  | uniqueViolation
  | foreignKeyViolation
  | duplicateColumn
  | noSuchTable
deriving DecidableEq, Repr

/-- The projection a DiaryEntry row contributes to entries_fts, as written by
MIGRATION_005 and its triggers: (id, content_json, COALESCE(mood, '')). -/
def ftsProj (e : DiaryEntry) : FtsRow :=
  ⟨e.id, e.content_json, e.mood.getD ""⟩

/-- INSERT INTO entries (...) VALUES (...): enforces the id PRIMARY KEY and
the entry_date UNIQUE constraint of MIGRATION_001, then fires the entries_ai
trigger of MIGRATION_005, which appends the FTS projection of the new row. -/
def insertEntryRow (db : Db) (e : DiaryEntry) : Except SqlError Db :=
  if db.entries.any (fun r => r.id == e.id || r.entry_date == e.entry_date) then
    .error .uniqueViolation
  else
    .ok { db with
          entries := db.entries ++ [e],
          entries_fts := db.entries_fts ++ [ftsProj e] }

/-- UPDATE entries SET ... WHERE entry_date = ?: applies g to every row whose
entry_date matches, firing the entries_au trigger of MIGRATION_005 once per
updated row (DELETE FROM entries_fts WHERE entry_id = OLD.id, then INSERT the
projection of the NEW row).  Returns the updated rows (RETURNING *) together
with the new state.  Every use in queries.rs leaves id and entry_date
untouched, so OLD.id = NEW.id. -/
def updateEntriesWhereDate (db : Db) (entry_date : String)
    (g : DiaryEntry → DiaryEntry) : List DiaryEntry × Db :=
  let olds := db.entries.filter (fun r => r.entry_date == entry_date)
  let entries' := db.entries.map
    (fun r => if r.entry_date == entry_date then g r else r)
  let fts' := olds.foldl
    (fun fts r =>
      (fts.filter (fun f => ¬ f.entry_id == r.id)) ++ [ftsProj (g r)])
    db.entries_fts
  (olds.map g, { db with entries := entries', entries_fts := fts' })

/-- The row update performed by the UPDATE statement of upsert_entry:
SET content_json = ?, updated_at = ?. -/
def setContent (content_json : String) (now : Int) (r : DiaryEntry) : DiaryEntry :=
  { r with content_json := content_json, updated_at := now }

/-- First statement of upsert_entry (queries.rs lines 15-25): the
UPDATE ... RETURNING * observed through fetch_optional. -/
def upsertUpdateStep (db : Db) (entry_date content_json : String) (now : Int) :
    Option DiaryEntry × Db :=
  let (updated, db1) := updateEntriesWhereDate db entry_date (setContent content_json now)
  (updated.head?, db1)

/-- Second statement of upsert_entry (queries.rs lines 31-54): build the new
entry with a fresh id and INSERT it. -/
def upsertInsertStep (db : Db) (entry_date content_json : String) (now : Int)
    (newId : String) : Except SqlError (DiaryEntry × Db) :=
  let entry : DiaryEntry :=
    { id := newId, entry_date := entry_date, content_json := content_json,
      mood := none, mood_emoji := none, created_at := now, updated_at := now }
  (insertEntryRow db entry).map (fun db2 => (entry, db2))

/-- upsert_entry (queries.rs lines 7-58): try the UPDATE first; if it touched
no row, INSERT a freshly built entry.  The two statements run back to back on
the shared pool; there is no enclosing transaction in the source. -/
def upsert_entry (db : Db) (entry_date content_json : String) (now : Int)
    (newId : String) : Except SqlError (DiaryEntry × Db) :=
  match upsertUpdateStep db entry_date content_json now with
  | (some entry, db1) => .ok (entry, db1)
  | (none, db1) => upsertInsertStep db1 entry_date content_json now newId

/-- get_entry (queries.rs lines 60-70): SELECT * FROM entries WHERE
entry_date = ? via fetch_optional. -/
def get_entry (db : Db) (entry_date : String) : Option DiaryEntry :=
  db.entries.find? (fun r => r.entry_date == entry_date)

/-- The row update performed by the UPDATE statement of upsert_entry_mood:
SET mood = ?, mood_emoji = ?, updated_at = ?. -/
def setMood (mood mood_emoji : Option String) (now : Int) (r : DiaryEntry) :
    DiaryEntry :=
  { r with mood := mood, mood_emoji := mood_emoji, updated_at := now }

/-- The content serde_json writes for json!(\x7b\x7d), the empty document
upsert_entry_mood stores when it has to create the entry. -/
def emptyContentJson : String := "\x7b\x7d"

/-- upsert_entry_mood (queries.rs lines 202-255): UPDATE mood fields of the
row for the date; if none matched, INSERT a new entry whose content is the
empty JSON object and whose mood fields are the supplied arguments. -/
def upsert_entry_mood (db : Db) (entry_date : String)
    (mood mood_emoji : Option String) (now : Int) (newId : String) :
    Except SqlError (DiaryEntry × Db) :=
  let (updated, db1) := updateEntriesWhereDate db entry_date (setMood mood mood_emoji now)
  match updated.head? with
  | some entry => .ok (entry, db1)
  | none =>
    let entry : DiaryEntry :=
      { id := newId, entry_date := entry_date, content_json := emptyContentJson,
        mood := mood, mood_emoji := mood_emoji,
        created_at := now, updated_at := now }
    (insertEntryRow db1 entry).map (fun db2 => (entry, db2))

/-- DELETE FROM entries WHERE entry_date = ? (queries.rs lines 88-95),
together with what the schema makes it do: the entries_ad trigger of
MIGRATION_005 removes the FTS projection of every deleted row, and the
ON DELETE CASCADE foreign key of MIGRATION_002 removes the ai_operations
rows owned by every deleted row.  Returns rows_affected and the new state
(rows_affected counts only the rows deleted from entries itself). -/
def deleteEntryRows (db : Db) (entry_date : String) : Nat × Db :=
  let removed := db.entries.filter (fun r => r.entry_date == entry_date)
  let removedIds := removed.map (fun r => r.id)
  (removed.length,
   { db with
     entries := db.entries.filter (fun r => ¬ r.entry_date == entry_date),
     ai_operations :=
       db.ai_operations.filter (fun op => ¬ removedIds.contains op.entry_id),
     entries_fts :=
       db.entries_fts.filter (fun f => ¬ removedIds.contains f.entry_id) })

/-- delete_entry (queries.rs lines 88-95): returns rows_affected > 0. -/
def delete_entry (db : Db) (entry_date : String) : Bool × Db :=
  let (n, db1) := deleteEntryRows db entry_date
  (n > 0, db1)

/-! ### Full-text search (queries.rs lines 280-293) -/

/-- Stable insertion of an element into a list sorted by the Boolean
comparison le (the semantics of an SQL ORDER BY key). -/
def insertSorted (le : α → α → Bool) (a : α) : List α → List α
  | [] => [a]
  | b :: bs => if le a b then a :: b :: bs else b :: insertSorted le a bs

/-- Stable sort by the Boolean comparison le. -/
def sortByLe (le : α → α → Bool) (l : List α) : List α :=
  l.foldr (insertSorted le) []

/-- The ORDER BY comparison of search_entries:
bm25(entries_fts) DESC, e.entry_date DESC.  a precedes b when the bm25
value of a is larger, ties broken by larger entry_date. -/
def searchLe (a b : DiaryEntry × ℚ) : Bool :=
  if a.2 == b.2 then decide (b.1.entry_date ≤ a.1.entry_date)
  else decide (b.2 < a.2)

/-- The rows produced by
SELECT e.* FROM entries e INNER JOIN entries_fts fts ON e.id = fts.entry_id
WHERE entries_fts MATCH ? ORDER BY bm25(entries_fts) DESC, e.entry_date DESC.
The FTS5 engine is external to the Rust source, so its verdict on one query
is a parameter: score f = some s when the fts row f matches the query and
bm25() reports the value s for it, none when it does not match.  Per the
SQLite FTS5 documentation, bm25() returns smaller (more negative) values for
more relevant rows. -/
def searchRanked (db : Db) (score : FtsRow → Option ℚ) :
    List (DiaryEntry × ℚ) :=
  let joined := db.entries.flatMap (fun e =>
    db.entries_fts.filterMap (fun f =>
      if e.id == f.entry_id then (score f).map (fun s => (e, s)) else none))
  sortByLe searchLe joined

/-- search_entries (queries.rs lines 280-293). -/
def search_entries (db : Db) (score : FtsRow → Option ℚ) : List DiaryEntry :=
  (searchRanked db score).map (fun p => p.1)

/-! ### Export / import (queries.rs lines 384-492, models.rs) -/

/-- Mirrors struct ImportOptions in models.rs. -/
structure ImportOptions where
  overwrite : Bool
  include_ai_operations : Bool
deriving DecidableEq, Repr

/-- Mirrors struct ExportData in models.rs. -/
structure ExportData where
  version : String
  exported_at : Int
  entries : List DiaryEntry
  ai_operations : List AIOperation
deriving DecidableEq, Repr

/-- The row update performed by the UPDATE statement of import_data
(overwrite branch): SET content_json = ?, mood = ?, mood_emoji = ?,
updated_at = ? from the bundle entry. -/
def setFromBundle (e : DiaryEntry) (r : DiaryEntry) : DiaryEntry :=
  { r with content_json := e.content_json, mood := e.mood,
           mood_emoji := e.mood_emoji, updated_at := e.updated_at }

/-- The entry loop of import_data (queries.rs lines 413-459).  Each iteration
issues its statements directly on the pool, so the state mutated so far
persists even when a later statement fails; the Rust ? operator then aborts
the loop and returns the error.  The pair returned is (what import_data
returns, the database state left behind). -/
def importEntriesLoop (db : Db) (entries : List DiaryEntry) (overwrite : Bool)
    (count : Nat) : Except SqlError Nat × Db :=
  match entries with
  | [] => (.ok count, db)
  | e :: rest =>
    let existing :=
      (db.entries.find? (fun r => r.entry_date == e.entry_date)).map (fun r => r.id)
    match existing, overwrite with
    | none, _ =>
      match insertEntryRow db e with
      | .error err => (.error err, db)
      | .ok db1 => importEntriesLoop db1 rest overwrite (count + 1)
    | some _, true =>
      let (_, db1) := updateEntriesWhereDate db e.entry_date (setFromBundle e)
      importEntriesLoop db1 rest overwrite (count + 1)
    | some _, false => importEntriesLoop db rest overwrite count

/-- INSERT INTO ai_operations (...) VALUES (...): enforces the id PRIMARY
KEY and the foreign key to entries(id) (sqlx enables foreign_keys). -/
def insertAiOperationRow (db : Db) (op : AIOperation) : Except SqlError Db :=
  if db.ai_operations.any (fun r => r.id == op.id) then
    .error .uniqueViolation
  else if db.entries.any (fun e => e.id == op.entry_id) then
    .ok { db with ai_operations := db.ai_operations ++ [op] }
  else
    .error .foreignKeyViolation

/-- The AI-operation loop of import_data (queries.rs lines 463-489): insert
only the operations whose id is not already present. -/
def importAiOpsLoop (db : Db) (ops : List AIOperation) :
    Except SqlError Unit × Db :=
  match ops with
  | [] => (.ok (), db)
  | op :: rest =>
    let existing := db.ai_operations.find? (fun r => r.id == op.id)
    if existing.isSome then importAiOpsLoop db rest
    else
      match insertAiOperationRow db op with
      | .error err => (.error err, db)
      | .ok db1 => importAiOpsLoop db1 rest

/-- import_data (queries.rs lines 405-492). -/
def import_data (db : Db) (data : ExportData) (options : ImportOptions) :
    Except SqlError Nat × Db :=
  match importEntriesLoop db data.entries options.overwrite 0 with
  | (.error err, db1) => (.error err, db1)
  | (.ok count, db1) =>
    if options.include_ai_operations then
      match importAiOpsLoop db1 data.ai_operations with
      | (.error err, db2) => (.error err, db2)
      | (.ok _, db2) => (.ok count, db2)
    else (.ok count, db1)

/-! ### Dates (chrono NaiveDate under the %Y-%m-%d format)

chrono dates are embedded as their day number in the proleptic Gregorian
calendar (days since 1970-01-01, the civil-from-days correspondence), so
that subtracting one day is subtracting 1.  parse_from_str with %Y-%m-%d is
modelled with the lenient widths chrono uses: an optional leading minus and
up to four digits for %Y, up to two digits for %m and %d, the whole string
consumed, and full calendar validation including leap years. -/

/-- Leap year in the proleptic Gregorian calendar. -/
def isLeapYear (y : Int) : Bool :=
  (y % 4 == 0 && y % 100 != 0) || (y % 400 == 0)

/-- Number of days of month m of year y. -/
def daysInMonth (y : Int) (m : Nat) : Nat :=
  if m == 2 then (if isLeapYear y then 29 else 28)
  else if m == 4 || m == 6 || m == 9 || m == 11 then 30
  else 31

/-- Day number of a civil date (days since 1970-01-01). -/
def daysFromCivil (y : Int) (m d : Nat) : Int :=
  let y' : Int := if m ≤ 2 then y - 1 else y
  let era : Int := (if 0 ≤ y' then y' else y' - 399) / 400
  let yoe : Int := y' - era * 400
  let mp : Nat := (m + 9) % 12
  let doy : Int := ((153 * mp + 2) / 5 + d - 1 : Nat)
  let doe : Int := yoe * 365 + yoe / 4 - yoe / 100 + doy
  era * 146097 + doe - 719468

/-- Read at most maxW leading digits, returning the value, how many digits
were read, and the rest of the input. -/
def readDigits (maxW : Nat) : List Char → Nat → Nat → Nat × Nat × List Char
  | [], acc, cnt => (acc, cnt, [])
  | c :: cs, acc, cnt =>
    if cnt < maxW && c.isDigit then
      readDigits maxW cs (acc * 10 + (c.toNat - 48)) (cnt + 1)
    else (acc, cnt, c :: cs)

/-- Parse a %Y-%m-%d date into (year, month, day). -/
def parseYMD (cs : List Char) : Option (Int × Nat × Nat) :=
  let signed : Bool × List Char :=
    match cs with
    | '-' :: rest => (true, rest)
    | _ => (false, cs)
  let (y, yCnt, cs1) := readDigits 4 signed.2 0 0
  if yCnt == 0 then none else
  match cs1 with
  | '-' :: cs2 =>
    let (m, mCnt, cs3) := readDigits 2 cs2 0 0
    if mCnt == 0 then none else
    match cs3 with
    | '-' :: cs4 =>
      let (d, dCnt, cs5) := readDigits 2 cs4 0 0
      if dCnt == 0 then none else
      match cs5 with
      | [] =>
        let yi : Int := if signed.1 then -(y : Int) else (y : Int)
        if 1 ≤ m ∧ m ≤ 12 ∧ 1 ≤ d ∧ d ≤ daysInMonth yi m then
          some (yi, m, d)
        else none
      | _ => none
    | _ => none
  | _ => none

/-- chrono NaiveDate::parse_from_str(s, "%Y-%m-%d"), returning the day
number of the parsed date. -/
def parseDate (s : String) : Option Int :=
  (parseYMD s.data).map (fun t => daysFromCivil t.1 t.2.1 t.2.2)

/-! ### Writing streaks (queries.rs lines 323-379) -/

/-- Loop body of calculate_current_streak: dates are visited in the given
order (the caller passes the stored list reversed), unparseable strings fall
through, an exact hit increments the streak and moves check_date back one
day, an earlier date breaks, a later date continues. -/
def currentStreakGo : List String → Int → Int → Int
  | [], _, streak => streak
  | s :: rest, check, streak =>
    match parseDate s with
    | none => currentStreakGo rest check streak
    | some d =>
      if d = check then currentStreakGo rest (check - 1) (streak + 1)
      else if d < check then streak
      else currentStreakGo rest check streak

/-- calculate_current_streak (queries.rs lines 324-349); the chrono
Utc::now().date_naive() reading is the today parameter. -/
def calculate_current_streak (dates : List String) (today : Int) : Int :=
  if dates.isEmpty then 0
  else currentStreakGo dates.reverse today 0

/-- Loop body of calculate_longest_streak: prev is the last parsed date
seen, current the length of the open run, longest the best closed run. -/
def longestStreakGo : List String → Int → Int → Option Int → Int
  | [], longest, current, _ => max longest current
  | s :: rest, longest, current, prev =>
    match parseDate s with
    | none => longestStreakGo rest longest current prev
    | some d =>
      match prev with
      | some p =>
        if d - p = 1 then longestStreakGo rest longest (current + 1) (some d)
        else longestStreakGo rest (max longest current) 1 (some d)
      | none => longestStreakGo rest longest 1 (some d)

/-- calculate_longest_streak (queries.rs lines 352-379). -/
def calculate_longest_streak (dates : List String) : Int :=
  if dates.isEmpty then 0
  else longestStreakGo dates 0 0 none

/-! ### Specification-side definitions for the streak algorithms

These two definitions are written from the words of spec section 4.4, to be
compared with the source translations above. -/

/-- The current-streak walk as the specification states it: initialize
expected = today and streak = 0; scan the dates in descending order; a date
equal to expected increments the streak and decrements expected by one day;
a date strictly earlier than expected stops the walk; a later date is
skipped; a date that fails to parse is ignored. -/
def specCurrentWalkGo : List String → Int → Int → Int
  | [], _, streak => streak
  | s :: rest, expected, streak =>
    match parseDate s with
    | none => specCurrentWalkGo rest expected streak
    | some d =>
      if d = expected then specCurrentWalkGo rest (expected - 1) (streak + 1)
      else if d < expected then streak
      else specCurrentWalkGo rest expected streak

/-- Entry point of the specification walk, over the dates listed in
descending order. -/
def specCurrentStreakWalk (datesDescending : List String) (today : Int) : Int :=
  specCurrentWalkGo datesDescending today 0

/-- The longest-streak scan as the specification states it, over the
distinct valid dates sorted ascending (as day numbers): maintain current_run
and best; a date exactly one day after its predecessor extends current_run;
any other gap closes the run into best and restarts current_run = 1; after
the loop take max best current_run. -/
def specLongestScanGo : List Int → Int → Int → Int → Int
  | [], _, run, best => max best run
  | d :: ds, prev, run, best =>
    if d = prev + 1 then specLongestScanGo ds d (run + 1) best
    else specLongestScanGo ds d 1 (max best run)

/-- Entry point of the specification scan. -/
def specLongestStreakScan : List Int → Int
  | [] => 0
  | d :: ds => specLongestScanGo ds d 1 0

/-! ### Schema migrations (migrations.rs)

The schema state a migration run manipulates: which tables, columns and
triggers exist (the performance indexes of the migration scripts have no
observable effect on any operation and are not tracked), the rows of
schema_migrations, and the data rows MIGRATION_005 reads and writes.  The
whole of migrations::run executes inside one transaction, so an error
restores the initial state; this is the Except with no leaked state. -/

structure MigState where
  /-- none while the schema_migrations table does not exist; otherwise its
  (version, applied_at) rows. -/
  schema_migrations : Option (List (Int × Int))
  entriesTable : Bool
  /-- whether MIGRATION_004 has added the mood and mood_emoji columns. -/
  entriesHasMood : Bool
  aiOpsTable : Bool
  settingsTable : Bool
  ftsTable : Bool
  trigAi : Bool
  trigAd : Bool
  trigAu : Bool
  entriesRows : List DiaryEntry
  aiOpsRows : List AIOperation
  ftsRows : List FtsRow
deriving DecidableEq, Repr

/-- SELECT COALESCE(MAX(version), 0) FROM schema_migrations. -/
def maxVersion (rows : List (Int × Int)) : Int :=
  match rows.map (fun r => r.1) with
  | [] => 0
  | v :: vs => vs.foldl max v

/-- CREATE TABLE IF NOT EXISTS schema_migrations (the bootstrap statement at
the top of migrations::run, also part of MIGRATION_001). -/
def ensureMigrationsTable (s : MigState) : MigState :=
  { s with schema_migrations := some (s.schema_migrations.getD []) }

/-- INSERT INTO schema_migrations (version, applied_at) VALUES (?, ?);
version is the primary key. -/
def insertVersionRow (s : MigState) (v now : Int) : Except SqlError MigState :=
  if (s.schema_migrations.getD []).any (fun r => r.1 == v) then
    .error .uniqueViolation
  else
    .ok { s with
          schema_migrations := some ((s.schema_migrations.getD []) ++ [(v, now)]) }

/-- MIGRATION_001: create entries (without mood columns) and
schema_migrations, all IF NOT EXISTS. -/
def migration001 (s : MigState) : MigState :=
  { s with entriesTable := true,
           schema_migrations := some (s.schema_migrations.getD []) }

/-- The DROP TABLE IF EXISTS ai_operations issued before MIGRATION_002. -/
def dropAiOps (s : MigState) : MigState :=
  { s with aiOpsTable := false, aiOpsRows := [] }

/-- MIGRATION_002: create ai_operations IF NOT EXISTS. -/
def migration002 (s : MigState) : MigState :=
  { s with aiOpsTable := true }

/-- MIGRATION_003: create app_settings IF NOT EXISTS. -/
def migration003 (s : MigState) : MigState :=
  { s with settingsTable := true }

/-- MIGRATION_004: ALTER TABLE entries ADD COLUMN mood / mood_emoji.  ALTER
is not IF NOT EXISTS: it fails when the table is missing or the column
already exists. -/
def migration004 (s : MigState) : Except SqlError MigState :=
  if ¬ s.entriesTable then .error .noSuchTable
  else if s.entriesHasMood then .error .duplicateColumn
  else .ok { s with entriesHasMood := true }

/-- MIGRATION_005: create entries_fts IF NOT EXISTS, unconditionally copy
every entries row into it, and create the three triggers IF NOT EXISTS. -/
def migration005 (s : MigState) : Except SqlError MigState :=
  if ¬ s.entriesTable then .error .noSuchTable
  else
    .ok { s with
          ftsTable := true,
          ftsRows := s.ftsRows ++ s.entriesRows.map ftsProj,
          trigAi := true, trigAd := true, trigAu := true }

/-- One guarded step of migrations::run: when the version read at the start
of the run is below v, execute the step and record v. -/
def runStep (s : MigState) (current v now : Int)
    (step : MigState → Except SqlError MigState) : Except SqlError MigState :=
  if current < v then step s >>= fun s1 => insertVersionRow s1 v now
  else .ok s

/-- migrations::run (migrations.rs lines 103-183): bootstrap the version
table, read the current version once, then apply each pending step and
record its version, all in one transaction.  The clock readings of the five
steps are collapsed into the single parameter now; no claim depends on the
recorded timestamps. -/
def migrations_run (s0 : MigState) (now : Int) : Except SqlError MigState := do
  let s := ensureMigrationsTable s0
  let current := maxVersion (s.schema_migrations.getD [])
  let s ← runStep s current 1 now (fun t => .ok (migration001 t))
  let s ← runStep s current 2 now (fun t => .ok (migration002 (dropAiOps t)))
  let s ← runStep s current 3 now (fun t => .ok (migration003 t))
  let s ← runStep s current 4 now migration004
  runStep s current 5 now migration005

/-! ### Database well-formedness and the search-index invariant -/

/-- The id PRIMARY KEY constraint of the entries table. -/
def IdsUnique (db : Db) : Prop :=
  db.entries.Pairwise (fun a b => a.id ≠ b.id)

/-- The entry_date UNIQUE constraint of the entries table. -/
def DatesUnique (db : Db) : Prop :=
  db.entries.Pairwise (fun a b => a.entry_date ≠ b.entry_date)

/-- The invariant of spec section 3: for every live DiaryEntry there is
exactly one search-index row, and it carries the projected content; no
search-index row references a non-existent DiaryEntry. -/
def IndexConsistent (db : Db) : Prop :=
  (∀ e ∈ db.entries,
      db.entries_fts.filter (fun f => f.entry_id == e.id) = [ftsProj e]) ∧
  (∀ f ∈ db.entries_fts, ∃ e ∈ db.entries, e.id = f.entry_id)

/-- Well-formed database: the two declared uniqueness constraints hold and
the search index is consistent with the entries table. -/
def Wf (db : Db) : Prop :=
  IdsUnique db ∧ DatesUnique db ∧ IndexConsistent db

/-- The atomic update-or-insert of spec sections 4.2 and 4.3, written from
the words of the specification as one indivisible step, to be compared with
the two-statement upsert_entry: if an entry for the date exists, update its
content and updated_at and replace its index projection, returning the
updated row; otherwise insert a new entry with the fresh id, both timestamps
set to now and mood fields empty, adding its index projection. -/
def specAtomicUpsert (db : Db) (entry_date content_json : String) (now : Int)
    (newId : String) : DiaryEntry × Db :=
  match db.entries.find? (fun r => r.entry_date == entry_date) with
  | some e =>
    let e' := setContent content_json now e
    (e', { db with
           entries := db.entries.map
             (fun r => if r.entry_date == entry_date then setContent content_json now r else r),
           entries_fts :=
             (db.entries_fts.filter (fun f => ¬ f.entry_id == e.id)) ++ [ftsProj e'] })
  | none =>
    let e : DiaryEntry :=
      { id := newId, entry_date := entry_date, content_json := content_json,
        mood := none, mood_emoji := none, created_at := now, updated_at := now }
    (e, { db with
          entries := db.entries ++ [e],
          entries_fts := db.entries_fts ++ [ftsProj e] })

/-! ## Theorems -/

theorem currentStreakGo_eq_specWalk (l : List String) :
    ∀ check streak, currentStreakGo l check streak = specCurrentWalkGo l check streak := by
  induction l with
  | nil => intro check streak; rfl
  | cons s rest ih =>
    intro check streak
    simp only [currentStreakGo, specCurrentWalkGo]
    cases parseDate s with
    | none => exact ih check streak
    | some d =>
      by_cases h1 : d = check
      · simp only [if_pos h1]; exact ih _ _
      · simp only [if_neg h1]
        by_cases h2 : d < check
        · simp only [if_pos h2]
        · simp only [if_neg h2]; exact ih _ _

/-- Claim C5: for every list of stored entry dates and every value of today,
calculate_current_streak equals the walk the specification prescribes over
the dates in descending order (the stored ascending list reversed):
initialize expected = today and streak = 0; a date equal to expected
increments the streak and decrements expected by one day; a date strictly
earlier than expected stops the walk; a date later than expected is skipped
without changing streak or expected; dates that fail to parse are ignored
rather than fatal. -/
theorem current_streak_follows_spec_walk (dates : List String) (today : Int) :
    calculate_current_streak dates today = specCurrentStreakWalk dates.reverse today := by
  cases dates with
  | nil => rfl
  | cons d ds =>
    simp only [calculate_current_streak, List.isEmpty_cons, specCurrentStreakWalk,
      Bool.false_eq_true, if_false]
    exact currentStreakGo_eq_specWalk _ _ _

/-- Closed instance of claim C5 at a concrete input containing an
unparseable date, which the walk ignores. -/
theorem current_streak_follows_spec_walk_witness :
    calculate_current_streak ["garbage", "2026-01-02", "2026-01-03"] 20456
      = specCurrentStreakWalk ["2026-01-03", "2026-01-02", "garbage"] 20456
    ∧ calculate_current_streak ["garbage", "2026-01-02", "2026-01-03"] 20456 = 2 :=
  ⟨current_streak_follows_spec_walk ["garbage", "2026-01-02", "2026-01-03"] 20456,
   by decide⟩

theorem longestStreakGo_some (l : List String) :
    ∀ p best run, longestStreakGo l best run (some p)
      = specLongestScanGo (l.filterMap parseDate) p run best := by
  induction l with
  | nil => intro p best run; simp [longestStreakGo, specLongestScanGo, max_comm]
  | cons s rest ih =>
    intro p best run
    simp only [longestStreakGo, List.filterMap_cons]
    cases parseDate s with
    | none => exact ih p best run
    | some d =>
      by_cases h : d - p = 1
      · have hd : d = p + 1 := by omega
        simp only [specLongestScanGo, if_pos h, if_pos hd]
        exact ih d best (run + 1)
      · have hd : ¬ d = p + 1 := by omega
        simp only [specLongestScanGo, if_neg h, if_neg hd]
        exact ih d (max best run) 1

theorem longestStreakGo_none (l : List String) :
    longestStreakGo l 0 0 none = specLongestStreakScan (l.filterMap parseDate) := by
  induction l with
  | nil => rfl
  | cons s rest ih =>
    simp only [longestStreakGo, List.filterMap_cons]
    cases parseDate s with
    | none => exact ih
    | some d => exact longestStreakGo_some rest d 0 1

/-- Claim C6: for every list of stored entry dates whose valid dates are
already distinct and sorted ascending (which the UNIQUE constraint and the
ORDER BY of the caller guarantee), calculate_longest_streak equals the scan
the specification prescribes over those dates: a date exactly one day after
its predecessor extends the current run, any other gap closes the run into
best and restarts the run at 1, and after the loop best = max best run.  In
particular the examples of the specification hold: three consecutive dates
give longest streak 3, a one-day gap gives longest streak 1. -/
theorem longest_streak_follows_spec_scan :
    (∀ dates : List String, (dates.filterMap parseDate).Pairwise (· < ·) →
        calculate_longest_streak dates = specLongestStreakScan (dates.filterMap parseDate))
    ∧ calculate_longest_streak ["2026-01-01", "2026-01-02", "2026-01-03"] = 3
    ∧ calculate_longest_streak ["2026-01-01", "2026-01-03"] = 1 := by
  refine ⟨fun dates _ => ?_, by decide, by decide⟩
  cases dates with
  | nil => rfl
  | cons d ds =>
    simp only [calculate_longest_streak, List.isEmpty_cons, Bool.false_eq_true, if_false]
    exact longestStreakGo_none _

/-- Closed instance of claim C6 at a concrete sorted input. -/
theorem longest_streak_follows_spec_scan_witness :
    (["2026-01-01", "2026-01-02", "2026-01-04"].filterMap parseDate).Pairwise (· < ·)
    ∧ calculate_longest_streak ["2026-01-01", "2026-01-02", "2026-01-04"]
        = specLongestStreakScan
            (["2026-01-01", "2026-01-02", "2026-01-04"].filterMap parseDate) :=
  ⟨by decide,
   longest_streak_follows_spec_scan.1 ["2026-01-01", "2026-01-02", "2026-01-04"] (by decide)⟩

/-- Claim C3 (refuted by the code, evaluated at the failing input): a store
with two entries that both match the query, where the row of entry a is
strictly more relevant than the row of entry b under the SQLite FTS5
convention that bm25() reports better matches as smaller (more negative)
values.  search_entries lists the more relevant entry last: its
ORDER BY bm25(entries_fts) DESC sorts descending by the negated-score value
and therefore orders worst relevance first, contradicting both the claim and
the stated intent of the source (entries ordered by relevance). -/
theorem search_entries_orders_worst_relevance_first :
    let eA : DiaryEntry :=
      ⟨"a", "2026-01-01", "coffee coffee coffee", none, none, 0, 0⟩
    let eB : DiaryEntry := ⟨"b", "2026-01-02", "coffee tea", none, none, 0, 0⟩
    let db : Db := ⟨[eA, eB], [], [ftsProj eA, ftsProj eB]⟩
    let score : FtsRow → Option ℚ := fun f =>
      if f.entry_id == "a" then some (-2)
      else if f.entry_id == "b" then some (-1) else none
    score (ftsProj eA) = some (-2) ∧ score (ftsProj eB) = some (-1) ∧
      search_entries db score = [eB, eA] := by
  refine ⟨rfl, rfl, ?_⟩
  rfl

/-- Claim C2 counterexample: a bundle record that conflicts on the entry id
primary key (its entry_date is new, so the existence check by date does not
catch it) makes import_data abort with an error instead of being skipped:
the well-formed record that follows it in the bundle is never applied and no
count is returned. -/
theorem import_data_aborts_on_conflicting_id :
    let db : Db :=
      ⟨[⟨"a", "2026-01-01", "x", none, none, 0, 0⟩], [], [⟨"a", "x", ""⟩]⟩
    let bundle : ExportData :=
      ⟨"1.0", 0,
       [⟨"a", "2026-01-02", "y", none, none, 0, 0⟩,
        ⟨"b", "2026-01-03", "z", none, none, 0, 0⟩], []⟩
    let r := import_data db bundle ⟨false, false⟩
    r.1 = .error .uniqueViolation
      ∧ r.2.entries.map (fun e => e.entry_date) = ["2026-01-01"] := by
  exact ⟨rfl, rfl⟩

/-- Claim C2 as amended: the only conflict import_data skips without
aborting is the natural-key conflict its own existence check looks for — a
bundle entry whose entry_date already exists is, when overwrite is false,
skipped silently, not counted, and the rest of the bundle proceeds.  (A
record that makes a statement fail, such as the id conflict above, instead
aborts the import with an error.) -/
theorem import_skips_existing_date_without_abort
    (db : Db) (e : DiaryEntry) (rest : List DiaryEntry) (count : Nat)
    (h : (db.entries.find? (fun r => r.entry_date == e.entry_date)).isSome) :
    importEntriesLoop db (e :: rest) false count
      = importEntriesLoop db rest false count := by
  rcases Option.isSome_iff_exists.mp h with ⟨r, hr⟩
  simp [importEntriesLoop, hr]

/-- Closed instance of the amended claim C2 at a concrete conflicting
record. -/
theorem import_skips_existing_date_without_abort_witness :
    importEntriesLoop
        ⟨[⟨"a", "2026-01-01", "x", none, none, 0, 0⟩], [], [⟨"a", "x", ""⟩]⟩
        [⟨"c", "2026-01-01", "w", none, none, 3, 3⟩] false 0
      = importEntriesLoop
          ⟨[⟨"a", "2026-01-01", "x", none, none, 0, 0⟩], [], [⟨"a", "x", ""⟩]⟩
          [] false 0 :=
  import_skips_existing_date_without_abort _ _ _ _ (by decide)

/-- Claim C9: delete_entry removes the entry for the date together with all
AIOperationRecords whose entry_id references it (the ON DELETE CASCADE
foreign key) and its search-index projection (the entries_ad trigger),
leaves every other entry in place, and returns true exactly when an entry
for that date was present, false with no state change otherwise. -/
theorem delete_entry_cascades (db : Db) (d : String) :
    ((delete_entry db d).1 = true ↔ ∃ e ∈ db.entries, e.entry_date = d) ∧
    (∀ e ∈ (delete_entry db d).2.entries, ¬ e.entry_date = d) ∧
    (∀ e ∈ db.entries, e.entry_date = d →
       (∀ op ∈ (delete_entry db d).2.ai_operations, ¬ op.entry_id = e.id) ∧
       (∀ f ∈ (delete_entry db d).2.entries_fts, ¬ f.entry_id = e.id)) ∧
    (∀ e ∈ db.entries, ¬ e.entry_date = d → e ∈ (delete_entry db d).2.entries) ∧
    ((delete_entry db d).1 = false → (delete_entry db d).2 = db) := by
  refine ⟨?_, ?_, ?_, ?_, ?_⟩
  · simp only [delete_entry, deleteEntryRows, decide_eq_true_eq]
    rw [gt_iff_lt, List.length_pos_iff_exists_mem]
    constructor
    · rintro ⟨e, he⟩
      rw [List.mem_filter] at he
      exact ⟨e, he.1, by simpa using he.2⟩
    · rintro ⟨e, he, hd⟩
      exact ⟨e, List.mem_filter.mpr ⟨he, by simpa using hd⟩⟩
  · intro e he
    simp only [delete_entry, deleteEntryRows, List.mem_filter] at he
    simpa using he.2
  · intro e he hd
    have hmem : e.id ∈ (db.entries.filter
        (fun r => r.entry_date == d)).map (fun r => r.id) :=
      List.mem_map_of_mem _ (List.mem_filter.mpr ⟨he, by simpa using hd⟩)
    constructor
    · intro op hop heq
      simp only [delete_entry, deleteEntryRows, List.mem_filter] at hop
      rw [heq] at hop
      have := hop.2
      simp only [decide_eq_true_eq] at this
      exact this (List.elem_iff.mpr hmem)
    · intro f hf heq
      simp only [delete_entry, deleteEntryRows, List.mem_filter] at hf
      rw [heq] at hf
      have := hf.2
      simp only [decide_eq_true_eq] at this
      exact this (List.elem_iff.mpr hmem)
  · intro e he hd
    simp only [delete_entry, deleteEntryRows, List.mem_filter]
    exact ⟨he, by simpa using hd⟩
  · intro hfalse
    simp only [delete_entry, deleteEntryRows] at hfalse ⊢
    have hnot := of_decide_eq_false hfalse
    have hlen : (db.entries.filter (fun r => r.entry_date == d)).length = 0 := by
      omega
    have hnil : db.entries.filter (fun r => r.entry_date == d) = [] :=
      List.length_eq_zero.mp hlen
    have hall : ∀ r ∈ db.entries, ¬ r.entry_date = d := by
      intro r hr
      have := List.filter_eq_nil_iff.mp hnil r hr
      simpa using this
    rw [hnil]
    cases db with
    | mk entries aiOps fts =>
      simp only [Db.mk.injEq]
      refine ⟨?_, ?_, ?_⟩
      · exact List.filter_eq_self.mpr (fun a ha => by simpa using hall a ha)
      · exact List.filter_eq_self.mpr (fun a _ => by simp)
      · exact List.filter_eq_self.mpr (fun a _ => by simp)

/-- Closed instance of claim C9 at a concrete store with two entries, two
audit records and two index rows. -/
theorem delete_entry_cascades_witness :
    ((delete_entry
        ⟨[⟨"a", "2026-01-01", "x", none, none, 0, 0⟩,
          ⟨"b", "2026-01-02", "y", none, none, 0, 0⟩],
         [⟨"op1", "a", "polish", "o", "r", "p", "m", 0⟩,
          ⟨"op2", "b", "polish", "o", "r", "p", "m", 0⟩],
         [⟨"a", "x", ""⟩, ⟨"b", "y", ""⟩]⟩ "2026-01-01").1 = true
      ↔ ∃ e ∈ ([⟨"a", "2026-01-01", "x", none, none, 0, 0⟩,
                ⟨"b", "2026-01-02", "y", none, none, 0, 0⟩] : List DiaryEntry),
           e.entry_date = "2026-01-01") :=
  (delete_entry_cascades
    ⟨[⟨"a", "2026-01-01", "x", none, none, 0, 0⟩,
      ⟨"b", "2026-01-02", "y", none, none, 0, 0⟩],
     [⟨"op1", "a", "polish", "o", "r", "p", "m", 0⟩,
      ⟨"op2", "b", "polish", "o", "r", "p", "m", 0⟩],
     [⟨"a", "x", ""⟩, ⟨"b", "y", ""⟩]⟩ "2026-01-01").1

/-! ### Helper lemmas about the UPDATE statement -/

theorem updateEntriesWhereDate_fst (db : Db) (d : String)
    (g : DiaryEntry → DiaryEntry) :
    (updateEntriesWhereDate db d g).1
      = (db.entries.filter (fun r => r.entry_date == d)).map g := rfl

theorem updateEntriesWhereDate_snd_entries (db : Db) (d : String)
    (g : DiaryEntry → DiaryEntry) :
    (updateEntriesWhereDate db d g).2.entries
      = db.entries.map (fun r => if r.entry_date == d then g r else r) := rfl

theorem updateEntriesWhereDate_snd_aiOps (db : Db) (d : String)
    (g : DiaryEntry → DiaryEntry) :
    (updateEntriesWhereDate db d g).2.ai_operations = db.ai_operations := rfl

/-- Filtering the mapped entry list for the updated date yields the updated
matching rows, provided g does not change entry_date (true of every UPDATE
in queries.rs). -/
theorem filter_date_map_update (l : List DiaryEntry) (d : String)
    (g : DiaryEntry → DiaryEntry) (hg : ∀ r, (g r).entry_date = r.entry_date) :
    (l.map (fun r => if r.entry_date == d then g r else r)).filter
        (fun r => r.entry_date == d)
      = (l.filter (fun r => r.entry_date == d)).map g := by
  rw [List.filter_map]
  have h1 : l.filter ((fun r => r.entry_date == d) ∘
        (fun r => if r.entry_date == d then g r else r))
      = l.filter (fun r => r.entry_date == d) := by
    apply List.filter_congr
    intro a _
    by_cases h : a.entry_date == d
    · simp [Function.comp, h, hg]
    · simp [Function.comp, h]
  rw [h1]
  apply List.map_congr_left
  intro a ha
  simp [(List.mem_filter.mp ha).2]

/-- When no row matches the date, the UPDATE leaves the state unchanged. -/
theorem updateEntriesWhereDate_nomatch (db : Db) (d : String)
    (g : DiaryEntry → DiaryEntry)
    (hf : db.entries.filter (fun r => r.entry_date == d) = []) :
    (updateEntriesWhereDate db d g).2 = db := by
  have hall := List.filter_eq_nil_iff.mp hf
  unfold updateEntriesWhereDate
  rw [hf]
  cases db with
  | mk entries aiOps fts =>
    simp only [List.foldl_nil, Db.mk.injEq, and_true, true_and]
    calc entries.map (fun r => if r.entry_date == d then g r else r)
        = entries.map (fun r => r) :=
          List.map_congr_left (fun a ha => by simp [hall a ha])
      _ = entries := List.map_id' entries

/-- When a row matches the date, upsert_entry takes the UPDATE branch. -/
theorem upsert_entry_update_case (db : Db) (d c : String) (now : Int)
    (i : String) (e₀ : DiaryEntry) (t : List DiaryEntry)
    (hf : db.entries.filter (fun r => r.entry_date == d) = e₀ :: t) :
    upsert_entry db d c now i
      = .ok (setContent c now e₀,
             (updateEntriesWhereDate db d (setContent c now)).2) := by
  have hstep : upsertUpdateStep db d c now
      = (some (setContent c now e₀),
         (updateEntriesWhereDate db d (setContent c now)).2) := by
    unfold upsertUpdateStep
    rw [show (updateEntriesWhereDate db d (setContent c now))
        = ((updateEntriesWhereDate db d (setContent c now)).1,
           (updateEntriesWhereDate db d (setContent c now)).2) from rfl,
      updateEntriesWhereDate_fst, hf]
    rfl
  unfold upsert_entry
  rw [hstep]

/-- When no row matches the date, upsert_entry falls through to the INSERT
against the unchanged state. -/
theorem upsert_entry_insert_case (db : Db) (d c : String) (now : Int)
    (i : String)
    (hf : db.entries.filter (fun r => r.entry_date == d) = []) :
    upsert_entry db d c now i = upsertInsertStep db d c now i := by
  have hstep : upsertUpdateStep db d c now = (none, db) := by
    unfold upsertUpdateStep
    rw [show (updateEntriesWhereDate db d (setContent c now))
        = ((updateEntriesWhereDate db d (setContent c now)).1,
           (updateEntriesWhereDate db d (setContent c now)).2) from rfl,
      updateEntriesWhereDate_fst, hf, updateEntriesWhereDate_nomatch db d _ hf]
    rfl
  unfold upsert_entry
  rw [hstep]

/-- When a row matches the date, upsert_entry_mood takes the UPDATE
branch. -/
theorem upsert_entry_mood_update_case (db : Db) (d : String)
    (m me : Option String) (now : Int) (i : String) (e₀ : DiaryEntry)
    (t : List DiaryEntry)
    (hf : db.entries.filter (fun r => r.entry_date == d) = e₀ :: t) :
    upsert_entry_mood db d m me now i
      = .ok (setMood m me now e₀,
             (updateEntriesWhereDate db d (setMood m me now)).2) := by
  unfold upsert_entry_mood
  rw [show (updateEntriesWhereDate db d (setMood m me now))
      = ((updateEntriesWhereDate db d (setMood m me now)).1,
         (updateEntriesWhereDate db d (setMood m me now)).2) from rfl,
    updateEntriesWhereDate_fst, hf]
  rfl

/-- Claim C10: on an existing entry (the first row the UPDATE statement
returns for the date), upsert_entry_mood overwrites mood and mood_emoji with
exactly the supplied arguments — passing none clears a previously stored
value — while content_json, id and created_at stay unchanged; updated_at is
set to now. -/
theorem upsert_mood_overwrites_mood_fields (db : Db) (d : String)
    (m me : Option String) (now : Int) (i : String) (e₀ : DiaryEntry)
    (h : db.entries.find? (fun r => r.entry_date == d) = some e₀) :
    ∃ db', upsert_entry_mood db d m me now i
      = .ok ({ e₀ with mood := m, mood_emoji := me, updated_at := now }, db') := by
  rw [← List.filter_head?] at h
  cases hf : db.entries.filter (fun r => r.entry_date == d) with
  | nil => rw [hf] at h; simp at h
  | cons a t =>
    rw [hf] at h
    simp only [List.head?_cons, Option.some.injEq] at h
    subst h
    exact ⟨_, upsert_entry_mood_update_case db d m me now i a t hf⟩

/-- Closed instance of claim C10: a stored mood is cleared by passing
none. -/
theorem upsert_mood_overwrites_mood_fields_witness :
    ∃ db', upsert_entry_mood
        ⟨[⟨"a", "2026-01-01", "x", some "happy", some "S", 0, 0⟩], [],
         [⟨"a", "x", "happy"⟩]⟩ "2026-01-01" none none 9 "z"
      = .ok (⟨"a", "2026-01-01", "x", none, none, 0, 9⟩, db') :=
  upsert_mood_overwrites_mood_fields
    ⟨[⟨"a", "2026-01-01", "x", some "happy", some "S", 0, 0⟩], [],
     [⟨"a", "x", "happy"⟩]⟩ "2026-01-01" none none 9 "z"
    ⟨"a", "2026-01-01", "x", some "happy", some "S", 0, 0⟩ (by decide)

/-- Claim C8: once an upsert_entry call has succeeded for a date, any
subsequent upsert_entry to the same date succeeds and returns an entry with
the same id and created_at (and the same mood fields); only content_json
and updated_at take the new values.  Chaining this step covers every
sequence of repeated upserts. -/
theorem upsert_preserves_id_created_at (db : Db) (d c : String) (now : Int)
    (i : String) (e : DiaryEntry) (db1 : Db)
    (h1 : upsert_entry db d c now i = .ok (e, db1))
    (c' : String) (now' : Int) (i' : String) :
    ∃ e' db2, upsert_entry db1 d c' now' i' = .ok (e', db2) ∧
      e'.id = e.id ∧ e'.created_at = e.created_at ∧ e'.content_json = c' ∧
      e'.updated_at = now' ∧ e'.mood = e.mood ∧ e'.mood_emoji = e.mood_emoji := by
  have hgdate : ∀ r, (setContent c now r).entry_date = r.entry_date :=
    fun r => rfl
  cases hf : db.entries.filter (fun r => r.entry_date == d) with
  | cons e₀ t =>
    rw [upsert_entry_update_case db d c now i e₀ t hf] at h1
    simp only [Except.ok.injEq, Prod.mk.injEq] at h1
    obtain ⟨he, hdb1⟩ := h1
    have hf1 : db1.entries.filter (fun r => r.entry_date == d)
        = setContent c now e₀ :: t.map (setContent c now) := by
      rw [← hdb1, updateEntriesWhereDate_snd_entries,
        filter_date_map_update db.entries d _ hgdate, hf, List.map_cons]
    refine ⟨setContent c' now' (setContent c now e₀), _,
      upsert_entry_update_case db1 d c' now' i' _ _ hf1, ?_, ?_, ?_, ?_, ?_, ?_⟩
      <;> simp [setContent, ← he]
  | nil =>
    rw [upsert_entry_insert_case db d c now i hf] at h1
    simp only [upsertInsertStep, insertEntryRow] at h1
    by_cases hany : db.entries.any
        (fun r => r.id == i || r.entry_date == d)
    · rw [if_pos hany] at h1
      simp [Except.map] at h1
    · rw [if_neg hany] at h1
      simp only [Except.map, Except.ok.injEq, Prod.mk.injEq] at h1
      obtain ⟨he, hdb1⟩ := h1
      have hf1 : db1.entries.filter (fun r => r.entry_date == d)
          = [⟨i, d, c, none, none, now, now⟩] := by
        rw [← hdb1]
        simp only [List.filter_append, hf, List.nil_append]
        simp [List.filter]
      refine ⟨setContent c' now' ⟨i, d, c, none, none, now, now⟩, _,
        upsert_entry_update_case db1 d c' now' i' _ _ hf1, ?_, ?_, ?_, ?_, ?_, ?_⟩
        <;> simp [setContent, ← he]

/-- Closed instance of claim C8: a second upsert to the same date keeps id A
and created_at 5 while replacing the content and updated_at. -/
theorem upsert_preserves_id_created_at_witness :
    ∃ e' db2,
      upsert_entry
          ⟨[⟨"A", "2026-01-01", "hello", none, none, 5, 5⟩], [],
           [⟨"A", "hello", ""⟩]⟩ "2026-01-01" "world" 9 "B"
        = .ok (e', db2) ∧
      e'.id = "A" ∧ e'.created_at = 5 ∧ e'.content_json = "world" ∧
      e'.updated_at = 9 ∧ e'.mood = none ∧ e'.mood_emoji = none :=
  upsert_preserves_id_created_at ⟨[], [], []⟩ "2026-01-01" "hello" 5 "A"
    ⟨"A", "2026-01-01", "hello", none, none, 5, 5⟩
    ⟨[⟨"A", "2026-01-01", "hello", none, none, 5, 5⟩], [], [⟨"A", "hello", ""⟩]⟩
    rfl "world" 9 "B"

/-- Claim C4 counterexample: upsert_entry is not atomic, because its UPDATE
and INSERT are two separate statements with no enclosing transaction.  Trace,
starting from the empty store, of two concurrent upserts of the same date —
writer A with content ca, time 1, fresh id idA; writer B with content cb,
time 2, fresh id idB — interleaved as A-UPDATE, B-UPDATE, B-INSERT,
A-INSERT: both UPDATEs observe no row, B inserts, and the INSERT of A then
fails with a UNIQUE violation; yet in either serial order both upserts
complete without error, so the interleaved outcome matches no serial
execution. -/
theorem concurrent_upserts_not_serializable :
    upsertUpdateStep ⟨[], [], []⟩ "2026-01-01" "ca" 1 = (none, ⟨[], [], []⟩) ∧
    upsertUpdateStep ⟨[], [], []⟩ "2026-01-01" "cb" 2 = (none, ⟨[], [], []⟩) ∧
    upsertInsertStep ⟨[], [], []⟩ "2026-01-01" "cb" 2 "idB"
      = .ok (⟨"idB", "2026-01-01", "cb", none, none, 2, 2⟩,
             ⟨[⟨"idB", "2026-01-01", "cb", none, none, 2, 2⟩], [],
              [⟨"idB", "cb", ""⟩]⟩) ∧
    upsertInsertStep
        ⟨[⟨"idB", "2026-01-01", "cb", none, none, 2, 2⟩], [],
         [⟨"idB", "cb", ""⟩]⟩ "2026-01-01" "ca" 1 "idA"
      = .error .uniqueViolation ∧
    upsert_entry ⟨[], [], []⟩ "2026-01-01" "ca" 1 "idA"
      = .ok (⟨"idA", "2026-01-01", "ca", none, none, 1, 1⟩,
             ⟨[⟨"idA", "2026-01-01", "ca", none, none, 1, 1⟩], [],
              [⟨"idA", "ca", ""⟩]⟩) ∧
    upsert_entry
        ⟨[⟨"idA", "2026-01-01", "ca", none, none, 1, 1⟩], [],
         [⟨"idA", "ca", ""⟩]⟩ "2026-01-01" "cb" 2 "idB"
      = .ok (⟨"idA", "2026-01-01", "cb", none, none, 1, 2⟩,
             ⟨[⟨"idA", "2026-01-01", "cb", none, none, 1, 2⟩], [],
              [⟨"idA", "cb", ""⟩]⟩) ∧
    upsert_entry ⟨[], [], []⟩ "2026-01-01" "cb" 2 "idB"
      = .ok (⟨"idB", "2026-01-01", "cb", none, none, 2, 2⟩,
             ⟨[⟨"idB", "2026-01-01", "cb", none, none, 2, 2⟩], [],
              [⟨"idB", "cb", ""⟩]⟩) ∧
    upsert_entry
        ⟨[⟨"idB", "2026-01-01", "cb", none, none, 2, 2⟩], [],
         [⟨"idB", "cb", ""⟩]⟩ "2026-01-01" "ca" 1 "idA"
      = .ok (⟨"idB", "2026-01-01", "ca", none, none, 2, 1⟩,
             ⟨[⟨"idB", "2026-01-01", "ca", none, none, 2, 1⟩], [],
              [⟨"idB", "ca", ""⟩]⟩) :=
  ⟨rfl, rfl, rfl, rfl, rfl, rfl, rfl, rfl⟩

/-- Under the UNIQUE date constraint, the UPDATE of a matching date touches
exactly one row. -/
theorem filter_date_singleton (l : List DiaryEntry) (d : String)
    (hp : l.Pairwise (fun a b => a.entry_date ≠ b.entry_date))
    (e₀ : DiaryEntry) (t : List DiaryEntry)
    (hf : l.filter (fun r => r.entry_date == d) = e₀ :: t) : t = [] := by
  have hpf := hp.filter (fun r => r.entry_date == d)
  rw [hf] at hpf
  cases t with
  | nil => rfl
  | cons b t' =>
    have h1 : e₀.entry_date = d := by
      have hm : e₀ ∈ l.filter (fun r => r.entry_date == d) := by
        rw [hf]; exact List.mem_cons_self _ _
      simpa using (List.mem_filter.mp hm).2
    have h2 : b.entry_date = d := by
      have hm : b ∈ l.filter (fun r => r.entry_date == d) := by
        rw [hf]; exact List.mem_cons_of_mem _ (List.mem_cons_self _ _)
      simpa using (List.mem_filter.mp hm).2
    rcases List.pairwise_cons.mp hpf with ⟨hrel, _⟩
    exact absurd (h1.trans h2.symm) (hrel b (List.mem_cons_self _ _))

/-- Claim C4 as amended: upsert_entry is not wrapped in a transaction — it
is an UPDATE followed, when no row matched, by a separate INSERT, and the
counterexample above shows the pair is not atomic under concurrent writers.
What does hold is that each single statement is atomic, and that in the
absence of interleaved writers the two statements together behave exactly
like the one-step atomic update-or-insert of the specification, so a reader
never observes a partially written entry in serial execution. -/
theorem upsert_entry_sequentially_atomic (db : Db) (d c : String) (now : Int)
    (i : String) (hDates : DatesUnique db)
    (hFresh : ∀ r ∈ db.entries, ¬ r.id = i) :
    upsert_entry db d c now i = .ok (specAtomicUpsert db d c now i) := by
  cases hf : db.entries.filter (fun r => r.entry_date == d) with
  | nil =>
    have hfind : db.entries.find? (fun r => r.entry_date == d) = none := by
      rw [← List.filter_head?, hf]; rfl
    have hnodate := List.filter_eq_nil_iff.mp hf
    have hany : db.entries.any (fun r => r.id == i || r.entry_date == d)
        = false := by
      rw [List.any_eq_false]
      intro r hr
      simp only [Bool.or_eq_true, beq_iff_eq, not_or]
      exact ⟨hFresh r hr, by simpa using hnodate r hr⟩
    rw [upsert_entry_insert_case db d c now i hf]
    unfold specAtomicUpsert
    rw [hfind]
    simp only [upsertInsertStep, insertEntryRow, hany]
    rfl
  | cons e₀ t =>
    have ht : t = [] := filter_date_singleton db.entries d hDates e₀ t hf
    subst ht
    have hfind : db.entries.find? (fun r => r.entry_date == d) = some e₀ := by
      rw [← List.filter_head?, hf]; rfl
    rw [upsert_entry_update_case db d c now i e₀ [] hf]
    unfold specAtomicUpsert
    rw [hfind]
    unfold updateEntriesWhereDate
    rw [hf]
    rfl

/-- Closed instance of the amended claim C4 on a store already holding an
entry for another date. -/
theorem upsert_entry_sequentially_atomic_witness :
    upsert_entry
        ⟨[⟨"a", "2026-01-01", "x", none, none, 0, 0⟩], [], [⟨"a", "x", ""⟩]⟩
        "2026-01-02" "y" 7 "b"
      = .ok (specAtomicUpsert
          ⟨[⟨"a", "2026-01-01", "x", none, none, 0, 0⟩], [], [⟨"a", "x", ""⟩]⟩
          "2026-01-02" "y" 7 "b") :=
  upsert_entry_sequentially_atomic
    ⟨[⟨"a", "2026-01-01", "x", none, none, 0, 0⟩], [], [⟨"a", "x", ""⟩]⟩
    "2026-01-02" "y" 7 "b" (by unfold DatesUnique; decide) (by decide)

/-! ### Migration idempotence -/

theorem except_bind_ok {ε α β : Type _} (m : Except ε α) (f : α → Except ε β)
    (b : β) (h : m >>= f = .ok b) : ∃ a, m = .ok a ∧ f a = .ok b := by
  cases m with
  | error e =>
    rw [show ((Except.error e : Except ε α) >>= f) = Except.error e from rfl] at h
    cases h
  | ok a =>
    rw [show ((Except.ok a : Except ε α) >>= f) = f a from rfl] at h
    exact ⟨a, rfl, h⟩

theorem except_ok_bind {ε α β : Type _} (a : α) (f : α → Except ε β) :
    (Except.ok a : Except ε α) >>= f = f a := rfl

theorem foldl_max_init_le (l : List Int) : ∀ a : Int, a ≤ l.foldl max a := by
  induction l with
  | nil => intro a; simp
  | cons x xs ih => intro a; exact le_trans (le_max_left a x) (ih (max a x))

theorem foldl_max_mem_le (l : List Int) :
    ∀ a x : Int, x ∈ l → x ≤ l.foldl max a := by
  induction l with
  | nil => intro a x hx; simp at hx
  | cons y ys ih =>
    intro a x hx
    rcases List.mem_cons.mp hx with h | h
    · subst h; exact le_trans (le_max_right a x) (foldl_max_init_le ys (max a x))
    · exact ih (max a y) x h

theorem le_maxVersion (rows : List (Int × Int)) (v t : Int)
    (hm : (v, t) ∈ rows) : v ≤ maxVersion rows := by
  unfold maxVersion
  have hv : v ∈ rows.map (fun r => r.1) := by
    exact List.mem_map.mpr ⟨(v, t), hm, rfl⟩
  cases hmap : rows.map (fun r => r.1) with
  | nil => rw [hmap] at hv; simp at hv
  | cons w ws =>
    rw [hmap] at hv
    rcases List.mem_cons.mp hv with h | h
    · subst h; exact foldl_max_init_le ws v
    · exact foldl_max_mem_le ws w v h

theorem runStep_skip (s : MigState) (current v now : Int)
    (step : MigState → Except SqlError MigState) (h : ¬ current < v) :
    runStep s current v now step = .ok s := by
  unfold runStep
  rw [if_neg h]

/-- A guarded step that executes records its version at the end of the
version table. -/
theorem runStep_records_version (s : MigState) (current v now : Int)
    (step : MigState → Except SqlError MigState) (s' : MigState)
    (h : runStep s current v now step = .ok s') (hlt : current < v) :
    ∃ s1, step s = .ok s1 ∧
      s'.schema_migrations
        = some ((s1.schema_migrations.getD []) ++ [(v, now)]) := by
  unfold runStep at h
  rw [if_pos hlt] at h
  obtain ⟨s1, hstep, h⟩ := except_bind_ok _ _ _ h
  unfold insertVersionRow at h
  by_cases hdup : (s1.schema_migrations.getD []).any (fun r => r.1 == v) = true
  · rw [if_pos hdup] at h; cases h
  · rw [if_neg hdup] at h
    cases h
    exact ⟨s1, hstep, rfl⟩

/-- Every successful migration run leaves a version table whose maximum
recorded version is at least 5. -/
theorem migrations_run_reaches_five (s0 : MigState) (now : Int) (s1 : MigState)
    (h : migrations_run s0 now = .ok s1) :
    ∃ rows, s1.schema_migrations = some rows ∧ 5 ≤ maxVersion rows := by
  simp only [migrations_run] at h
  obtain ⟨sA, hA, h⟩ := except_bind_ok _ _ _ h
  obtain ⟨sB, hB, h⟩ := except_bind_ok _ _ _ h
  obtain ⟨sC, hC, h⟩ := except_bind_ok _ _ _ h
  obtain ⟨sD, hD, h⟩ := except_bind_ok _ _ _ h
  by_cases hc : maxVersion
      ((ensureMigrationsTable s0).schema_migrations.getD []) < 5
  · obtain ⟨sE, _, hrows⟩ := runStep_records_version _ _ _ _ _ _ h hc
    refine ⟨_, hrows, ?_⟩
    exact le_maxVersion _ 5 now
      (List.mem_append.mpr (Or.inr (List.mem_singleton.mpr rfl)))
  · have h5 : ¬ maxVersion ((ensureMigrationsTable s0).schema_migrations.getD []) < 5 := hc
    have h1 : ¬ maxVersion ((ensureMigrationsTable s0).schema_migrations.getD []) < 1 := by omega
    have h2 : ¬ maxVersion ((ensureMigrationsTable s0).schema_migrations.getD []) < 2 := by omega
    have h3 : ¬ maxVersion ((ensureMigrationsTable s0).schema_migrations.getD []) < 3 := by omega
    have h4 : ¬ maxVersion ((ensureMigrationsTable s0).schema_migrations.getD []) < 4 := by omega
    rw [runStep_skip _ _ _ _ _ h1] at hA
    cases hA
    rw [runStep_skip _ _ _ _ _ h2] at hB
    cases hB
    rw [runStep_skip _ _ _ _ _ h3] at hC
    cases hC
    rw [runStep_skip _ _ _ _ _ h4] at hD
    cases hD
    rw [runStep_skip _ _ _ _ _ h5] at h
    cases h
    exact ⟨(ensureMigrationsTable s0).schema_migrations.getD [], rfl, by omega⟩

/-- A run against a state whose version table already records version 5 (or
later) is the identity and raises no error. -/
theorem migrations_run_already_current (s : MigState)
    (rows : List (Int × Int)) (now : Int)
    (hrows : s.schema_migrations = some rows) (h5 : 5 ≤ maxVersion rows) :
    migrations_run s now = .ok s := by
  have hens : ensureMigrationsTable s = s := by
    unfold ensureMigrationsTable
    rw [hrows, Option.getD_some, ← hrows]
  unfold migrations_run
  simp only [hens, hrows, Option.getD_some]
  rw [runStep_skip _ _ _ _ _ (by omega), except_ok_bind]
  rw [runStep_skip _ _ _ _ _ (by omega), except_ok_bind]
  rw [runStep_skip _ _ _ _ _ (by omega), except_ok_bind]
  rw [runStep_skip _ _ _ _ _ (by omega), except_ok_bind]
  exact runStep_skip _ _ _ _ _ (by omega)

/-- Claim C7: running the full migration sequence a second time against a
store the first run brought to the latest version is a no-op: it produces no
error and returns the state unchanged — no migration step re-executes and no
new version row is inserted. -/
theorem migrations_rerun_noop (s0 : MigState) (now1 : Int) (s1 : MigState)
    (now2 : Int) (h : migrations_run s0 now1 = .ok s1) :
    migrations_run s1 now2 = .ok s1 := by
  obtain ⟨rows, hrows, h5⟩ := migrations_run_reaches_five s0 now1 s1 h
  exact migrations_run_already_current s1 rows now2 hrows h5

/-- Closed instance of claim C7: the state a first run produces from a fresh
store is a fixed point of a second run. -/
theorem migrations_rerun_noop_witness :
    migrations_run
        ⟨some [(1, 7), (2, 7), (3, 7), (4, 7), (5, 7)], true, true, true,
         true, true, true, true, true, [], [], []⟩ 9
      = .ok ⟨some [(1, 7), (2, 7), (3, 7), (4, 7), (5, 7)], true, true, true,
             true, true, true, true, true, [], [], []⟩ :=
  migrations_rerun_noop
    ⟨none, false, false, false, false, false, false, false, false, [], [], []⟩
    7
    ⟨some [(1, 7), (2, 7), (3, 7), (4, 7), (5, 7)], true, true, true,
     true, true, true, true, true, [], [], []⟩ 9 rfl

/-! ### Preservation of the search-index invariant (claim C1) -/

theorem ids_ne_of_mem (db : Db) (hids : IdsUnique db) {a b : DiaryEntry}
    (ha : a ∈ db.entries) (hb : b ∈ db.entries) (hne : a ≠ b) : a.id ≠ b.id :=
  List.Pairwise.forall (fun _ _ h => Ne.symm h) hids ha hb hne

theorem filter_excluded_id (fts : List FtsRow) (x : String) :
    (fts.filter (fun f => ¬ f.entry_id == x)).filter
        (fun f => f.entry_id == x) = [] := by
  rw [List.filter_eq_nil_iff]
  intro f hf
  have h2 := (List.mem_filter.mp hf).2
  simp only [decide_eq_true_eq] at h2
  exact h2

theorem filter_kept_id (fts : List FtsRow) (x y : String) (z : FtsRow)
    (hxy : ¬ x = y) (hfx : fts.filter (fun f => f.entry_id == x) = [z]) :
    (fts.filter (fun f => ¬ f.entry_id == y)).filter
        (fun f => f.entry_id == x) = [z] := by
  rw [List.filter_comm, hfx]
  have hz : z.entry_id = x := by
    have hm : z ∈ fts.filter (fun f => f.entry_id == x) := by
      rw [hfx]; exact List.mem_singleton.mpr rfl
    simpa using (List.mem_filter.mp hm).2
  simp [List.filter, hz, hxy]

theorem filter_not_contains_id (fts : List FtsRow) (ids : List String)
    (x : String) (z : FtsRow) (hx : ¬ x ∈ ids)
    (hfx : fts.filter (fun f => f.entry_id == x) = [z]) :
    (fts.filter (fun f => ¬ ids.contains f.entry_id)).filter
        (fun f => f.entry_id == x) = [z] := by
  rw [List.filter_comm, hfx]
  have hz : z.entry_id = x := by
    have hm : z ∈ fts.filter (fun f => f.entry_id == x) := by
      rw [hfx]; exact List.mem_singleton.mpr rfl
    simpa using (List.mem_filter.mp hm).2
  have hd : (z.entry_id ∈ ids) = False := by rw [hz]; exact eq_false hx
  simp [List.filter, hd]

/-- The INSERT statement preserves well-formedness: the constraints admit
the row only when its id and date are fresh, and the entries_ai trigger adds
exactly the projection of the new row. -/
theorem insertEntryRow_wf (db : Db) (e : DiaryEntry) (db' : Db)
    (hwf : Wf db) (h : insertEntryRow db e = .ok db') : Wf db' := by
  obtain ⟨hids, hdates, hcons⟩ := hwf
  unfold insertEntryRow at h
  by_cases hany : db.entries.any
      (fun r => r.id == e.id || r.entry_date == e.entry_date) = true
  · rw [if_pos hany] at h; cases h
  · rw [if_neg hany] at h
    cases h
    have hfresh := List.any_eq_false.mp (Bool.eq_false_iff.mpr hany)
    have hfreshId : ∀ r ∈ db.entries, ¬ r.id = e.id := by
      intro r hr
      have h3 := hfresh r hr
      simp only [Bool.or_eq_true, beq_iff_eq, not_or] at h3
      exact h3.1
    have hfreshDate : ∀ r ∈ db.entries, ¬ r.entry_date = e.entry_date := by
      intro r hr
      have h3 := hfresh r hr
      simp only [Bool.or_eq_true, beq_iff_eq, not_or] at h3
      exact h3.2
    refine ⟨List.pairwise_append.mpr ⟨hids, List.pairwise_singleton _ _, ?_⟩,
            List.pairwise_append.mpr ⟨hdates, List.pairwise_singleton _ _, ?_⟩,
            ?_, ?_⟩
    · intro a ha b hb
      rw [List.mem_singleton] at hb
      subst hb
      exact hfreshId a ha
    · intro a ha b hb
      rw [List.mem_singleton] at hb
      subst hb
      exact hfreshDate a ha
    · intro e' he'
      rcases List.mem_append.mp he' with he' | he'
      · show (db.entries_fts ++ [ftsProj e]).filter
            (fun f => f.entry_id == e'.id) = [ftsProj e']
        rw [List.filter_append, hcons.1 e' he']
        have hne : ¬ (ftsProj e).entry_id = e'.id := by
          simp only [ftsProj]
          intro hh
          exact hfreshId e' he' hh.symm
        simp [List.filter, beq_eq_false_iff_ne.mpr hne]
      · rw [List.mem_singleton] at he'
        rw [he']
        show (db.entries_fts ++ [ftsProj e]).filter
            (fun f => f.entry_id == e.id) = [ftsProj e]
        rw [List.filter_append]
        have h1 : db.entries_fts.filter (fun f => f.entry_id == e.id) = [] := by
          rw [List.filter_eq_nil_iff]
          intro f hf
          obtain ⟨r, hr, hrid⟩ := hcons.2 f hf
          simp only [beq_iff_eq]
          intro hfe
          exact hfreshId r hr (by rw [hrid, hfe])
        rw [h1]
        simp [ftsProj]
    · intro f hf
      rcases List.mem_append.mp hf with hf | hf
      · obtain ⟨r, hr, hrid⟩ := hcons.2 f hf
        exact ⟨r, List.mem_append_left _ hr, hrid⟩
      · rw [List.mem_singleton] at hf
        subst hf
        exact ⟨e, List.mem_append_right _ (List.mem_singleton.mpr rfl), rfl⟩

/-- The UPDATE statement preserves well-formedness for any per-row update g
that keeps id and entry_date (true of every UPDATE in queries.rs): under the
UNIQUE date constraint it touches at most one row, and the entries_au
trigger replaces exactly the projection of that row. -/
theorem updateEntriesWhereDate_wf (db : Db) (d : String)
    (g : DiaryEntry → DiaryEntry)
    (hgid : ∀ r, (g r).id = r.id)
    (hgdate : ∀ r, (g r).entry_date = r.entry_date)
    (hwf : Wf db) : Wf (updateEntriesWhereDate db d g).2 := by
  obtain ⟨hids, hdates, hcons⟩ := hwf
  cases hf : db.entries.filter (fun r => r.entry_date == d) with
  | nil =>
    rw [updateEntriesWhereDate_nomatch db d g hf]
    exact ⟨hids, hdates, hcons⟩
  | cons e₀ t =>
    have ht : t = [] := filter_date_singleton db.entries d hdates e₀ t hf
    subst ht
    have he₀ := List.mem_filter.mp
      (show e₀ ∈ db.entries.filter (fun r => r.entry_date == d) by
        rw [hf]; exact List.mem_cons_self _ _)
    have hsnd : (updateEntriesWhereDate db d g).2
        = { db with
            entries := db.entries.map
              (fun r => if r.entry_date == d then g r else r),
            entries_fts :=
              (db.entries_fts.filter (fun f => ¬ f.entry_id == e₀.id))
                ++ [ftsProj (g e₀)] } := by
      unfold updateEntriesWhereDate
      rw [hf]
      rfl
    rw [hsnd]
    have hid : ∀ r : DiaryEntry,
        ((fun r => if r.entry_date == d then g r else r) r).id = r.id := by
      intro r
      by_cases hr : (r.entry_date == d) = true
      · simp [hr, hgid]
      · simp [hr]
    have hdate : ∀ r : DiaryEntry,
        ((fun r => if r.entry_date == d then g r else r) r).entry_date
          = r.entry_date := by
      intro r
      by_cases hr : (r.entry_date == d) = true
      · simp [hr, hgdate]
      · simp [hr]
    refine ⟨?_, ?_, ?_, ?_⟩
    · refine List.pairwise_map.mpr (List.Pairwise.imp ?_ hids)
      intro a b hab
      rw [hid a, hid b]
      exact hab
    · refine List.pairwise_map.mpr (List.Pairwise.imp ?_ hdates)
      intro a b hab
      rw [hdate a, hdate b]
      exact hab
    · intro e' he'
      obtain ⟨r, hr, hre⟩ := List.mem_map.mp he'
      by_cases hrd : (r.entry_date == d) = true
      · have hre₀ : r = e₀ := by
          have hm : r ∈ db.entries.filter (fun r => r.entry_date == d) :=
            List.mem_filter.mpr ⟨hr, hrd⟩
          rw [hf] at hm
          simpa using hm
        have he'g : e' = g e₀ := by rw [← hre, ← hre₀]; simp [hrd]
        rw [he'g]
        show ((db.entries_fts.filter (fun f => ¬ f.entry_id == e₀.id))
              ++ [ftsProj (g e₀)]).filter
            (fun f => f.entry_id == (g e₀).id) = [ftsProj (g e₀)]
        rw [List.filter_append]
        rw [show (fun f : FtsRow => f.entry_id == (g e₀).id)
            = (fun f : FtsRow => f.entry_id == e₀.id) from by
          funext f; rw [hgid]]
        rw [filter_excluded_id]
        simp [List.filter, ftsProj, hgid]
      · have he'r : e' = r := by rw [← hre]; simp [hrd]
        rw [he'r]
        have hrne : ¬ r = e₀ := by
          intro hre₀
          rw [hre₀] at hrd
          exact hrd he₀.2
        have hidne : ¬ r.id = e₀.id :=
          ids_ne_of_mem db hids hr he₀.1 hrne
        show ((db.entries_fts.filter (fun f => ¬ f.entry_id == e₀.id))
              ++ [ftsProj (g e₀)]).filter (fun f => f.entry_id == r.id)
            = [ftsProj r]
        rw [List.filter_append,
          filter_kept_id db.entries_fts r.id e₀.id (ftsProj r) hidne
            (hcons.1 r hr)]
        have hne2 : ¬ (ftsProj (g e₀)).entry_id = r.id := by
          simp only [ftsProj, hgid]
          intro hh
          exact hidne hh.symm
        simp [List.filter, beq_eq_false_iff_ne.mpr hne2]
    · intro f hf
      rcases List.mem_append.mp hf with hf | hf
      · have hf2 := List.mem_filter.mp hf
        obtain ⟨r, hr, hrid⟩ := hcons.2 f hf2.1
        refine ⟨(fun r => if r.entry_date == d then g r else r) r,
          List.mem_map_of_mem _ hr, ?_⟩
        rw [hid r]
        exact hrid
      · rw [List.mem_singleton] at hf
        rw [hf]
        refine ⟨(fun r => if r.entry_date == d then g r else r) e₀,
          List.mem_map_of_mem _ he₀.1, ?_⟩
        rw [hid e₀]
        show e₀.id = (ftsProj (g e₀)).entry_id
        simp [ftsProj, hgid]

/-- The DELETE statement preserves well-formedness: the entries_ad trigger
removes exactly the projections of the deleted rows, and the cascade touches
only ai_operations, which the invariant does not mention. -/
theorem deleteEntryRows_wf (db : Db) (d : String) (hwf : Wf db) :
    Wf (deleteEntryRows db d).2 := by
  obtain ⟨hids, hdates, hcons⟩ := hwf
  refine ⟨List.Pairwise.filter _ hids, List.Pairwise.filter _ hdates, ?_, ?_⟩
  · intro e' he'
    have he2 := List.mem_filter.mp he'
    have hnotin : ¬ e'.id ∈ (db.entries.filter
        (fun r => r.entry_date == d)).map (fun r => r.id) := by
      intro hin
      obtain ⟨rr, hrr, hrrid⟩ := List.mem_map.mp hin
      have hrr2 := List.mem_filter.mp hrr
      have hne : ¬ rr = e' := by
        intro hh
        rw [hh] at hrr2
        have := he2.2
        simp only [decide_eq_true_eq] at this
        exact this hrr2.2
      exact ids_ne_of_mem db hids hrr2.1 (he2.1) hne hrrid
    show (db.entries_fts.filter (fun f =>
          ¬ ((db.entries.filter (fun r => r.entry_date == d)).map
              (fun r => r.id)).contains f.entry_id)).filter
        (fun f => f.entry_id == e'.id) = [ftsProj e']
    exact filter_not_contains_id db.entries_fts _ e'.id (ftsProj e') hnotin
      (hcons.1 e' he2.1)
  · intro f hf
    have hf2 := List.mem_filter.mp hf
    obtain ⟨r, hr, hrid⟩ := hcons.2 f hf2.1
    have hrkeep : ¬ (r.entry_date == d) = true := by
      intro hrd
      have hin : f.entry_id ∈ (db.entries.filter
          (fun rr => rr.entry_date == d)).map (fun rr => rr.id) :=
        List.mem_map.mpr ⟨r, List.mem_filter.mpr ⟨hr, hrd⟩, hrid⟩
      have := hf2.2
      simp only [decide_eq_true_eq] at this
      exact this (List.elem_iff.mpr hin)
    exact ⟨r, List.mem_filter.mpr ⟨hr, by simpa using hrkeep⟩, hrid⟩

/-- upsert_entry preserves well-formedness. -/
theorem upsert_entry_wf (db : Db) (d c : String) (now : Int) (i : String)
    (e : DiaryEntry) (db' : Db) (hwf : Wf db)
    (h : upsert_entry db d c now i = .ok (e, db')) : Wf db' := by
  cases hf : db.entries.filter (fun r => r.entry_date == d) with
  | cons e₀ t =>
    rw [upsert_entry_update_case db d c now i e₀ t hf] at h
    simp only [Except.ok.injEq, Prod.mk.injEq] at h
    rw [← h.2]
    exact updateEntriesWhereDate_wf db d _ (fun r => rfl) (fun r => rfl) hwf
  | nil =>
    rw [upsert_entry_insert_case db d c now i hf] at h
    simp only [upsertInsertStep] at h
    cases hrow : insertEntryRow db
        ⟨i, d, c, none, none, now, now⟩ with
    | error err => rw [hrow] at h; simp [Except.map] at h
    | ok dbN =>
      rw [hrow] at h
      simp only [Except.map, Except.ok.injEq, Prod.mk.injEq] at h
      rw [← h.2]
      exact insertEntryRow_wf db _ dbN hwf hrow

/-- When no row matches the date, upsert_entry_mood falls through to the
INSERT against the unchanged state. -/
theorem upsert_entry_mood_insert_case (db : Db) (d : String)
    (m me : Option String) (now : Int) (i : String)
    (hf : db.entries.filter (fun r => r.entry_date == d) = []) :
    upsert_entry_mood db d m me now i
      = (insertEntryRow db
          { id := i, entry_date := d, content_json := emptyContentJson,
            mood := m, mood_emoji := me,
            created_at := now, updated_at := now }).map
          (fun db2 =>
            ({ id := i, entry_date := d, content_json := emptyContentJson,
               mood := m, mood_emoji := me,
               created_at := now, updated_at := now }, db2)) := by
  unfold upsert_entry_mood
  rw [show (updateEntriesWhereDate db d (setMood m me now))
      = ((updateEntriesWhereDate db d (setMood m me now)).1,
         (updateEntriesWhereDate db d (setMood m me now)).2) from rfl,
    updateEntriesWhereDate_fst, hf, updateEntriesWhereDate_nomatch db d _ hf]
  rfl

/-- upsert_entry_mood preserves well-formedness. -/
theorem upsert_entry_mood_wf (db : Db) (d : String) (m me : Option String)
    (now : Int) (i : String) (e : DiaryEntry) (db' : Db) (hwf : Wf db)
    (h : upsert_entry_mood db d m me now i = .ok (e, db')) : Wf db' := by
  cases hf : db.entries.filter (fun r => r.entry_date == d) with
  | cons e₀ t =>
    rw [upsert_entry_mood_update_case db d m me now i e₀ t hf] at h
    simp only [Except.ok.injEq, Prod.mk.injEq] at h
    rw [← h.2]
    exact updateEntriesWhereDate_wf db d _ (fun r => rfl) (fun r => rfl) hwf
  | nil =>
    rw [upsert_entry_mood_insert_case db d m me now i hf] at h
    cases hrow : insertEntryRow db
        ⟨i, d, emptyContentJson, m, me, now, now⟩ with
    | error err => rw [hrow] at h; simp [Except.map] at h
    | ok dbN =>
      rw [hrow] at h
      simp only [Except.map, Except.ok.injEq, Prod.mk.injEq] at h
      rw [← h.2]
      exact insertEntryRow_wf db _ dbN hwf hrow

/-- The AI-operation INSERT leaves entries and the index untouched. -/
theorem insertAiOperationRow_wf (db : Db) (op : AIOperation) (db' : Db)
    (hwf : Wf db) (h : insertAiOperationRow db op = .ok db') : Wf db' := by
  unfold insertAiOperationRow at h
  by_cases h1 : db.ai_operations.any (fun r => r.id == op.id) = true
  · rw [if_pos h1] at h; cases h
  · rw [if_neg h1] at h
    by_cases h2 : db.entries.any (fun e => e.id == op.entry_id) = true
    · rw [if_pos h2] at h
      cases h
      exact hwf
    · rw [if_neg h2] at h; cases h

/-- The entry loop of import_data preserves well-formedness of the state it
leaves behind, whether it completes or aborts part-way. -/
theorem importEntriesLoop_wf (entries : List DiaryEntry) :
    ∀ (db : Db) (overwrite : Bool) (count : Nat), Wf db →
      Wf (importEntriesLoop db entries overwrite count).2 := by
  induction entries with
  | nil => intro db o c h; exact h
  | cons e rest ih =>
    intro db o c hwf
    simp only [importEntriesLoop]
    cases hex : (db.entries.find? (fun r =>
        r.entry_date == e.entry_date)).map (fun r => r.id) with
    | none =>
      simp only [hex]
      cases hrow : insertEntryRow db e with
      | error err => simp only [hrow]; exact hwf
      | ok db1 =>
        simp only [hrow]
        exact ih db1 o (c + 1) (insertEntryRow_wf db e db1 hwf hrow)
    | some id0 =>
      cases o with
      | true =>
        simp only [hex]
        exact ih _ _ _ (updateEntriesWhereDate_wf db e.entry_date _
          (fun r => rfl) (fun r => rfl) hwf)
      | false =>
        simp only [hex]
        exact ih db false c hwf

/-- The AI-operation loop of import_data preserves well-formedness. -/
theorem importAiOpsLoop_wf (ops : List AIOperation) :
    ∀ db : Db, Wf db → Wf (importAiOpsLoop db ops).2 := by
  induction ops with
  | nil => intro db h; exact h
  | cons op rest ih =>
    intro db hwf
    cases hex : db.ai_operations.find? (fun r => r.id == op.id) with
    | some r => simp only [importAiOpsLoop, hex]; exact ih db hwf
    | none =>
      simp only [importAiOpsLoop, hex]
      cases hrow : insertAiOperationRow db op with
      | error err => simp only [hrow]; exact hwf
      | ok db1 =>
        simp only [hrow]
        exact ih db1 (insertAiOperationRow_wf db op db1 hwf hrow)

/-- import_data preserves well-formedness of the state it leaves behind. -/
theorem import_data_wf (db : Db) (data : ExportData)
    (options : ImportOptions) (hwf : Wf db) :
    Wf (import_data db data options).2 := by
  unfold import_data
  have hloopWf := importEntriesLoop_wf data.entries db options.overwrite 0 hwf
  cases hloop : importEntriesLoop db data.entries options.overwrite 0 with
  | mk res db1 =>
    rw [hloop] at hloopWf
    cases res with
    | error err => exact hloopWf
    | ok count =>
      have haiWf := importAiOpsLoop_wf data.ai_operations db1 hloopWf
      cases options.include_ai_operations with
      | false => exact hloopWf
      | true =>
        simp only [if_true]
        cases hai : importAiOpsLoop db1 data.ai_operations with
        | mk res2 db2 =>
          rw [hai] at haiWf
          cases res2 with
          | error err => exact haiWf
          | ok u => exact haiWf

/-- Claim C1: starting from a well-formed store (the declared uniqueness
constraints plus a consistent index), every successful entry mutation —
insert or update via upsert_entry or upsert_entry_mood, delete via
delete_entry, and insert or overwrite via import_data — leaves the search
index exactly consistent with the entries table: every live DiaryEntry has
exactly one index row carrying its projected content and mood, and no index
row references a non-existent DiaryEntry.  The trigger-based synchroniser
fires inside each statement, so the guarantee holds even for the state an
aborted import leaves behind. -/
theorem mutations_preserve_index_consistency (db : Db) (hwf : Wf db) :
    (∀ d c now i e db', upsert_entry db d c now i = .ok (e, db') →
        IndexConsistent db') ∧
    (∀ d m me now i e db',
        upsert_entry_mood db d m me now i = .ok (e, db') →
        IndexConsistent db') ∧
    (∀ d, IndexConsistent (delete_entry db d).2) ∧
    (∀ data options, IndexConsistent (import_data db data options).2) := by
  refine ⟨?_, ?_, ?_, ?_⟩
  · intro d c now i e db' h
    exact (upsert_entry_wf db d c now i e db' hwf h).2.2
  · intro d m me now i e db' h
    exact (upsert_entry_mood_wf db d m me now i e db' hwf h).2.2
  · intro d
    exact (deleteEntryRows_wf db d hwf).2.2
  · intro data options
    exact (import_data_wf db data options hwf).2.2

/-- Closed instance of claim C1: the store an upsert into the empty store
produces has a consistent index. -/
theorem mutations_preserve_index_consistency_witness :
    IndexConsistent
      ⟨[⟨"W", "2026-01-05", "note", none, none, 3, 3⟩], [],
       [⟨"W", "note", ""⟩]⟩ :=
  (mutations_preserve_index_consistency ⟨[], [], []⟩
      ⟨List.Pairwise.nil, List.Pairwise.nil,
       fun e he => absurd he (List.not_mem_nil e),
       fun f hf => absurd hf (List.not_mem_nil f)⟩).1
    "2026-01-05" "note" 3 "W" _ _ rfl

end EchoDaily
